import Mathlib

/-!
Shallow embedding of the temporal-consistency core of the Asana seed-data
generator (src/src/utils/dates.py, src/src/generators/subtasks.py,
src/src/generators/users.py, src/src/utils/distributions.py, src/src/main.py).

Python `datetime` values are modelled at one-second granularity as a day
number (`days`, with day 0 chosen to be a Monday, so Python's
`weekday()` is `days % 7`) plus the second-of-day (`secs`).  `date`
values are plain day numbers (`ℤ`).  The global random source
(`random.random`, `random.randint`, numpy draws) is modelled as explicit
oracle streams threaded through each function by an index counter, so a
theorem quantified over the streams covers every possible sequence of
draws.  Unbounded `while` loops are translated with an explicit fuel
parameter; `none` means the loop did not exit within the given fuel, so
non-termination statements are `∀ fuel, … = none`.
-/

namespace Asana

/-- A naive `datetime` at second granularity: day number (day 0 is a
Monday) plus second of day.  Canonical values keep `0 ≤ secs < 86400`;
the embedding's arithmetic re-normalizes through `ofSecs` exactly where
Python's `timedelta` arithmetic would. -/
structure DT where
  days : ℤ
  secs : ℤ
  deriving DecidableEq, Repr

/-- Total seconds since the epoch; Python compares `datetime`s by this. -/
def toSecs (d : DT) : ℤ := d.days * 86400 + d.secs

/-- Build a canonical `DT` from total seconds (Python's normalized
`datetime`/`timedelta` representation: floor day, nonnegative remainder). -/
def ofSecs (s : ℤ) : DT := ⟨s / 86400, s % 86400⟩

/-- Python's `weekday()`: 0 = Monday … 6 = Sunday; weekend is `> 4`. -/
def weekday (d : DT) : ℤ := d.days % 7

/-- `d + timedelta(days = k)`. -/
def addDays (d : DT) (k : ℤ) : DT := ⟨d.days + k, d.secs⟩

/-- Python `(end_date - start_date).days`: floor of the difference in days. -/
def daysBetween (s e : DT) : ℤ := (toSecs e - toSecs s) / 86400

/-- The process-wide random source of the generator, as oracle streams:
`floats n` models the n-th relevant `random.random()` draw (a rational in
`[0,1)`), `ints n` feeds the n-th `random.randint` / numpy draw. -/
structure RS where
  floats : ℕ → ℚ
  ints : ℕ → ℕ

/-- `random.random()`: consume one float draw. -/
def randFloat (rs : RS) (ctr : ℕ) : ℚ × ℕ := (rs.floats ctr, ctr + 1)

/-- `random.randint(a, b)` (inclusive bounds): the oracle value reduced
into `[a, b]`; for `a ≤ b` every value of the range is attainable. -/
def randInt (rs : RS) (a b : ℤ) (ctr : ℕ) : ℤ × ℕ :=
  (a + (rs.ints ctr : ℤ) % (b - a + 1), ctr + 1)

/-- The inner repair loop of `generate_created_at` (dates.py:50-51):
`while candidate_date.weekday() > 4: candidate_date -= timedelta(days=1)`. -/
def backWeekday : DT → ℕ → Option DT
  | d, 0 => if 4 < weekday d then none else some d
  | d, fuel + 1 =>
    if 4 < weekday d then backWeekday ⟨d.days - 1, d.secs⟩ fuel else some d

/-- The weekday-selection loop of `generate_created_at` (dates.py:46-51):
advance a weekend candidate forward one day at a time; if it passes
`end_date`, redraw a fresh candidate and walk it backwards to a weekday. -/
def fwdLoop (rs : RS) (startD endD : DT) (dr : ℤ) :
    DT → ℕ → ℕ → Option (DT × ℕ)
  | cand, 0, ctr => if 4 < weekday cand then none else some (cand, ctr)
  | cand, fuel + 1, ctr =>
    if 4 < weekday cand then
      let cand2 := addDays cand 1
      if toSecs endD < toSecs cand2 then
        let (k, ctr2) := randInt rs 0 dr ctr
        match backWeekday (addDays startD k) fuel with
        | none => none
        | some cand3 => fwdLoop rs startD endD dr cand3 fuel ctr2
      else fwdLoop rs startD endD dr cand2 fuel ctr
    else some (cand, ctr)

/-- The weekend-selection loop of `generate_created_at` (dates.py:58-59):
`while candidate_date.weekday() <= 4: candidate_date = start_date +
timedelta(days=random.randint(0, days_range))`. -/
def wkndLoop (rs : RS) (startD : DT) (dr : ℤ) :
    DT → ℕ → ℕ → Option (DT × ℕ)
  | cand, 0, ctr => if weekday cand ≤ 4 then none else some (cand, ctr)
  | cand, fuel + 1, ctr =>
    if weekday cand ≤ 4 then
      let (k, ctr2) := randInt rs 0 dr ctr
      wkndLoop rs startD dr (addDays startD k) fuel ctr2
    else some (cand, ctr)

/-- Day selection of `generate_created_at` (dates.py:38-63). -/
def pickDay (rs : RS) (startD endD : DT) (preferWeekdays : Bool)
    (fuel ctr : ℕ) : Option (DT × ℕ) :=
  let dr := daysBetween startD endD
  if preferWeekdays then
    let (r, c1) := randFloat rs ctr
    if r < 85 / 100 then
      let (k, c2) := randInt rs 0 dr c1
      fwdLoop rs startD endD dr (addDays startD k) fuel c2
    else
      let (k, c2) := randInt rs 0 dr c1
      wkndLoop rs startD dr (addDays startD k) fuel c2
  else
    let (k, c1) := randInt rs 0 dr ctr
    some (addDays startD k, c1)

/-- Hour selection of `generate_created_at` (dates.py:66-74): 70% of
business-hour draws in `[9,17]`, otherwise uniform `[0,23]`. -/
def pickHour (rs : RS) (hourBusiness : Bool) (ctr : ℕ) : ℤ × ℕ :=
  if hourBusiness then
    let (r, ca) := randFloat rs ctr
    if r < 70 / 100 then randInt rs 9 17 ca else randInt rs 0 23 ca
  else randInt rs 0 23 ctr

/-- `generate_created_at` (dates.py:19-79).  `hourBusiness` models
`hour_distribution == 'business_hours'`.  The final
`candidate_date.replace(hour, minute, second)` keeps the selected day and
installs the drawn time of day. -/
def generate_created_at (rs : RS) (startD endD : DT)
    (preferWeekdays hourBusiness : Bool) (fuel ctr : ℕ) : Option (DT × ℕ) :=
  match pickDay rs startD endD preferWeekdays fuel ctr with
  | none => none
  | some (cand, c1) =>
    let hc := pickHour rs hourBusiness c1
    let mn := randInt rs 0 59 hc.2
    let sc := randInt rs 0 59 mn.2
    some (⟨cand.days, hc.1 * 3600 + mn.1 * 60 + sc.1⟩, sc.2)

/-- The weekend-avoidance loop of `generate_due_date` (dates.py:120-121
and 139-140): `while due_date.weekday() > 4: due_date += timedelta(days=1)`,
on plain dates (day numbers). -/
def fwdDateWeekday : ℤ → ℕ → Option ℤ
  | d, 0 => if 4 < d % 7 then none else some d
  | d, fuel + 1 => if 4 < d % 7 then fwdDateWeekday (d + 1) fuel else some d

/-- `generate_due_date` (dates.py:82-142).  Returns `some (none, ctr)`
for the 10% no-due-date branch and `some (some day, ctr)` otherwise;
the outer `none` is loop-fuel exhaustion.  `created.days` is
`created_at.date()`; adding whole days to `created_at` before taking
`.date()` adds the same number of days to the date (the embedding keeps
`0 ≤ secs < 86400` for its inputs).  The `project_type` and
`overdue_probability` parameters of the source are unused in its body
(the thresholds are hardcoded), so they are omitted here. -/
def generate_due_date (rs : RS) (created : DT) (fuel ctr : ℕ) :
    Option (Option ℤ × ℕ) :=
  let (rand, c1) := randFloat rs ctr
  if rand < 10 / 100 then some (none, c1)
  else if rand < 15 / 100 then
    let (j, c2) := randInt rs 0 1 c1
    let due := created.days + j
    let (r3, c3) := randFloat rs c2
    if r3 < 85 / 100 ∧ 4 < due % 7 then
      match fwdDateWeekday due fuel with
      | none => none
      | some d => some (some d, c3)
    else some (some due, c3)
  else
    let (daysAhead, c2) :=
      if rand < 40 / 100 then randInt rs 1 7 c1
      else if rand < 80 / 100 then randInt rs 8 30 c1
      else randInt rs 31 90 c1
    let due := created.days + daysAhead
    let (r3, c3) := randFloat rs c2
    if r3 < 85 / 100 ∧ 4 < due % 7 then
      match fwdDateWeekday due fuel with
      | none => none
      | some d => some (some d, c3)
    else some (some due, c3)

/-- The due-date reconciliation step of `generate_completed_at`
(dates.py:175-193, naive operands): when the candidate overshoots the due
date's midnight instant, pull it back `1..24` hours before the due
instant (80%) or push it `1..3` days past it (20%). -/
def dueAdjust (rs : RS) (created : DT) (cycle : ℤ) (d : ℤ) (c2 : ℕ) :
    DT × ℕ :=
  if toSecs ⟨d, 0⟩ < toSecs (addDays created cycle) then
    if rs.floats c2 < 80 / 100 then
      (ofSecs (toSecs ⟨d, 0⟩ - (randInt rs 1 24 (c2 + 1)).1 * 3600),
        (randInt rs 1 24 (c2 + 1)).2)
    else
      (addDays ⟨d, 0⟩ (randInt rs 1 3 (c2 + 1)).1,
        (randInt rs 1 3 (c2 + 1)).2)
  else (addDays created cycle, c2)

/-- `generate_completed_at` (dates.py:145-199) for naive datetimes (the
identical arithmetic runs in the timezone-aware-with-pytz path, where
both operands are localized to UTC; the awareness bookkeeping itself is
modelled separately below).  The numpy log-normal cycle-time draw
`max(1, int(exp(normal(1.5, 0.5))))` is an arbitrary integer clamped to
`≥ 1`, modelled by clamping one `ints` draw. -/
def generate_completed_at (rs : RS) (created : DT) (due : Option ℤ)
    (rate : ℚ) (ctr : ℕ) : Option DT × ℕ :=
  let r := rs.floats ctr
  let c1 := ctr + 1
  if rate < r then (none, c1)
  else
    let cycle : ℤ := max 1 (Int.ofNat (rs.ints c1))
    let c2 := c1 + 1
    let adj : DT × ℕ :=
      match due with
      | none => (addDays created cycle, c2)
      | some d => dueAdjust rs created cycle d c2
    if toSecs adj.1 ≤ toSecs created then
      (some (ofSecs (toSecs created + (randInt rs 1 24 adj.2).1 * 3600)),
        (randInt rs 1 24 adj.2).2)
    else (some adj.1, adj.2)

/-! Embedding of the subtask temporal logic (src/src/generators/subtasks.py). -/

/-- A subtask's creation instant (subtasks.py:116):
`generate_created_at(parent_dt, self.end_date, prefer_weekdays=True)`
with the default `hour_distribution='business_hours'`.  The window start
is the parent task's creation instant, not the global start. -/
def subtask_created_at (rs : RS) (parentDT endD : DT) (fuel ctr : ℕ) :
    Option (DT × ℕ) :=
  generate_created_at rs parentDT endD true true fuel ctr

/-- The Python value passed as `parent_due_date` to
`SubtaskGenerator.generate_subtasks`: `None`, or a string together with
the result of `datetime.fromisoformat(s).date()` (`none` models the
`ValueError`/`AttributeError` of an unparseable string). -/
inductive PyDueStr where
  | pynone : PyDueStr
  | pystr (s : String) (parsed : Option ℤ) : PyDueStr

/-- The parent-due-date parsing of subtasks.py:72-79: `None` and the
empty string (falsy) yield no parent due date, a non-empty string yields
its parse result, with parse failures mapped to `None`. -/
def parse_parent_due : PyDueStr → Option ℤ
  | .pynone => none
  | .pystr s parsed => if s = "" then none else parsed

/-- Per-subtask due-date computation (subtasks.py:119-138): with a parent
due date, the subtask due date is the parent's minus `0..7` days; without
one, a fresh due date is sampled from the subtask's own creation instant
via `generate_due_date`.  (The `except` branch around the subtraction is
unreachable: `parent_due` is a `date`, so the `isinstance` re-parse and
the subtraction cannot raise.) -/
def subtask_due_date (rs : RS) (created : DT) (parentDue : Option ℤ)
    (fuel ctr : ℕ) : Option (Option ℤ × ℕ) :=
  match parentDue with
  | some pd =>
    let db := (randInt rs 0 7 ctr).1
    some (some (pd - db), (randInt rs 0 7 ctr).2)
  | none => generate_due_date rs created fuel ctr

/-! Embedding of the timezone-awareness bookkeeping of
`generate_completed_at` (dates.py:174-199).  A `TzDT` is a datetime
together with its Python awareness flag (`tzinfo is not None`); comparing
an aware and a naive datetime raises `TypeError` in Python, modelled by
`Except.error`. -/

structure TzDT where
  dt : DT
  aware : Bool
  deriving DecidableEq, Repr

/-- `generate_completed_at` with Python's timezone-awareness semantics
made explicit (dates.py:145-199).  `pytzAvail` states whether the
optional `pytz` import succeeded.  The arithmetic mirrors the naive
embedding; every comparison of two datetimes first checks that both
operands have the same awareness and raises otherwise, exactly as Python
does. -/
def generate_completed_at_pytz (pytzAvail : Bool) (rs : RS)
    (created : TzDT) (due : Option ℤ) (rate : ℚ) (ctr : ℕ) :
    Except String (Option TzDT × ℕ) :=
  let r := rs.floats ctr
  let c1 := ctr + 1
  if rate < r then .ok (none, c1)
  else
    let cycle : ℤ := max 1 (Int.ofNat (rs.ints c1))
    let c2 := c1 + 1
    let completed : TzDT := ⟨addDays created.dt cycle, created.aware⟩
    match due with
    | none =>
      if completed.aware ≠ created.aware then .error "TypeError"
      else if toSecs completed.dt ≤ toSecs created.dt then
        .ok (some ⟨ofSecs (toSecs created.dt + (randInt rs 1 24 c2).1 * 3600),
          created.aware⟩, (randInt rs 1 24 c2).2)
      else .ok (some completed, c2)
    | some d =>
      let due0 : TzDT := ⟨⟨d, 0⟩, false⟩
      let fixed : TzDT × TzDT :=
        if created.aware = true ∧ due0.aware = false then
          if pytzAvail then (⟨due0.dt, true⟩, completed)
          else (due0, ⟨completed.dt, false⟩)
        else if created.aware = false ∧ due0.aware = true then
          (⟨due0.dt, false⟩, completed)
        else (due0, completed)
      if fixed.2.aware ≠ fixed.1.aware then .error "TypeError"
      else
        let adj : TzDT × ℕ :=
          if toSecs fixed.1.dt < toSecs fixed.2.dt then
            if rs.floats c2 < 80 / 100 then
              (⟨ofSecs (toSecs fixed.1.dt - (randInt rs 1 24 (c2 + 1)).1 * 3600),
                fixed.1.aware⟩, (randInt rs 1 24 (c2 + 1)).2)
            else
              (⟨addDays fixed.1.dt (randInt rs 1 3 (c2 + 1)).1, fixed.1.aware⟩,
                (randInt rs 1 3 (c2 + 1)).2)
          else (fixed.2, c2)
        if adj.1.aware ≠ created.aware then .error "TypeError"
        else if toSecs adj.1.dt ≤ toSecs created.dt then
          .ok (some ⟨ofSecs (toSecs created.dt + (randInt rs 1 24 adj.2).1 * 3600),
            created.aware⟩, (randInt rs 1 24 adj.2).2)
        else .ok (some adj.1, adj.2)

/-! Embedding of the user/email generation
(src/src/generators/users.py:39-112 and
src/src/scrapers/demographics.py:36-79).  Names come from an external
collaborator (Faker), modelled as an oracle stream of (first, last)
pairs; only the draws that decide the email values are modelled. -/

/-- Python `str.lower()`, modelled at the character-list level
(character-wise lowercasing). -/
def pyLower (s : String) : String := ⟨s.data.map Char.toLower⟩

/-- Python `str.replace(c, "")` for a one-character pattern: drop every
occurrence of the character. -/
def pyDropChar (s : String) (c : Char) : String :=
  ⟨s.data.filter (fun x => x != c)⟩

/-- Python `s[0]` rendered into an f-string: the first character as a
one-character string (the source never calls it on an empty name). -/
def pyTake1 (s : String) : String := ⟨s.data.take 1⟩

/-- `generate_email` (demographics.py:36-79): one of five enterprise
patterns chosen by a single `random.random()` draw, then apostrophes and
spaces stripped. -/
def generate_email (r : ℚ) (first last domain : String) : String :=
  let f := pyLower first
  let l := pyLower last
  let email :=
    if r < 60 / 100 then f ++ "." ++ l ++ "@" ++ domain
    else if r < 80 / 100 then f ++ l ++ "@" ++ domain
    else if r < 90 / 100 then pyTake1 f ++ "." ++ l ++ "@" ++ domain
    else if r < 95 / 100 then f ++ "." ++ pyTake1 l ++ "@" ++ domain
    else f ++ "_" ++ l ++ "@" ++ domain
  pyDropChar (pyDropChar email '\x27') ' '

/-- The bounded unique-email attempt loop of users.py:66-73: up to
`attempts` candidate emails are drawn; the first one not already in the
generated pool is taken. -/
def attemptEmail (rs : RS) (first last domain : String)
    (gen : List String) : ℕ → ℕ → Option String × ℕ
  | 0, ctr => (none, ctr)
  | att + 1, ctr =>
    let cand := generate_email (rs.floats ctr) first last domain
    if gen.contains cand then attemptEmail rs first last domain gen att (ctr + 1)
    else (some cand, ctr + 1)

/-- The fallback email of users.py:75-78:
`f"{first.lower()}.{last.lower()}.{random.randint(1000, 9999)}@{domain}"`,
added to the pool without any membership check. -/
def fallbackEmail (first last domain : String) (draw : ℕ) : String :=
  pyLower first ++ "." ++ pyLower last ++ "." ++
    toString (1000 + draw % 9000) ++ "@" ++ domain

/-- The email-assignment loop of `UserGenerator.generate_users`
(users.py:60-100), restricted to the state that decides emails: for each
user, draw a name, run the bounded attempt loop against the pool of
already-taken emails, and fall back to the random-suffix email when all
attempts collide.  Returns each user's email paired with a flag telling
whether the unchecked fallback path produced it. -/
def genUsersGo (rs : RS) (names : ℕ → String × String) (domain : String) :
    ℕ → ℕ → ℕ → List String → List (String × Bool)
  | 0, _, _, _ => []
  | n + 1, i, ctr, gen =>
    let first := (names i).1
    let last := (names i).2
    match attemptEmail rs first last domain gen 10 ctr with
    | (some e, ctr2) => (e, false) :: genUsersGo rs names domain n (i + 1) ctr2 (e :: gen)
    | (none, ctr2) =>
      let e := fallbackEmail first last domain (rs.ints ctr2)
      (e, true) :: genUsersGo rs names domain n (i + 1) (ctr2 + 1) (e :: gen)

/-- `UserGenerator.generate_users` email production for `count` users,
starting from the emails already present in the database
(users.py:52-58). -/
def generate_users_emails (rs : RS) (names : ℕ → String × String)
    (domain : String) (existing : List String) (count : ℕ) :
    List (String × Bool) :=
  genUsersGo rs names domain count 0 0 existing

/-! Embedding of the per-project control flow of
`AsanaDataGenerator.generate_tasks` (src/src/main.py:201-330).  The
persistence layer and the generators are external collaborators here;
each project is represented by the outcomes its stages would produce.
`prepR` covers the per-project queries inside the outer `try`
(main.py:217-235), `taskGenR` the `task_gen.generate_tasks` call inside
the inner `try` (main.py:239-251), `fieldsR` the
`custom_field_gen.generate_custom_fields` call (main.py:257-261), which
sits outside every `try`.  Per-task subtask/comment/custom-value failures
(main.py:280-327) are each caught and logged, so they carry no control
flow and are not represented. -/

structure ProjStub where
  pid : ℕ
  prepR : Except String Unit
  taskGenR : Except String (List ℕ)
  fieldsR : Except String (List ℕ)

/-- The project loop of `generate_tasks`: a `prepR`/`taskGenR` failure
logs and `continue`s to the next project; a `fieldsR` failure propagates
out of the loop and aborts the stage.  Returns the ids of the projects
whose tasks were generated. -/
def generate_tasks_pipeline : List ProjStub → Except String (List ℕ)
  | [] => .ok []
  | p :: rest =>
    match p.prepR with
    | .error _ => generate_tasks_pipeline rest
    | .ok _ =>
      match p.taskGenR with
      | .error _ => generate_tasks_pipeline rest
      | .ok _ =>
        match p.fieldsR with
        | .error e => .error e
        | .ok _ =>
          match generate_tasks_pipeline rest with
          | .error e => .error e
          | .ok l => .ok (p.pid :: l)

/-! Embedding of `weighted_choice` (src/src/utils/distributions.py:47-58),
which is `random.choices(values, weights=weights)[0]`.  CPython's
`random.choices` computes the cumulative weights, raises `ValueError`
when the total is not positive, and otherwise returns
`population[bisect.bisect(cum_weights, random() * total, 0, len - 1)]`.
The empty list raises at the `zip(*choices)` unpacking. -/

/-- Cumulative sums of the weights (`itertools.accumulate`). -/
def cumWeights : List ℚ → List ℚ
  | [] => []
  | w :: ws => w :: (cumWeights ws).map (w + ·)

/-- `bisect.bisect_right(a, x, 0, hi)`: the number of entries of the
first `hi` elements that are `≤ x`. -/
def bisectRight (a : List ℚ) (x : ℚ) (hi : ℕ) : ℕ :=
  (a.take hi).countP (fun w => decide (w ≤ x))

/-- `weighted_choice` (distributions.py:47-58) with the draw
`u = random.random()` passed explicitly. -/
def weighted_choice (u : ℚ) (choices : List (String × ℚ)) :
    Except String String :=
  match choices with
  | [] => .error "ValueError: not enough values to unpack"
  | (v0, _) :: _ =>
    let values := choices.map Prod.fst
    let cum := cumWeights (choices.map Prod.snd)
    let total := cum.getLastD 0
    if total ≤ 0 then .error "ValueError: total of weights must be greater than zero"
    else .ok (values.getD (bisectRight cum (u * total) (choices.length - 1)) v0)

/-! Concrete draw streams used to evaluate the embedding at specific
inputs. -/

/-- All float draws 0, all integer draws 0. -/
def rsZero : RS := ⟨fun _ => 0, fun _ => 0⟩

/-- All float draws 0.9 (forces the 15% weekend branch), integers 0. -/
def rsWknd : RS := ⟨fun _ => 9 / 10, fun _ => 0⟩

/-- First float draw 0 (weekday branch), later float draws 0.9
(uniform-hour branch), integers 0. -/
def rsBack : RS := ⟨fun n => if n = 0 then 0 else 9 / 10, fun _ => 0⟩

/-- All float draws 0, all integer draws 5. -/
def rsFive : RS := ⟨fun _ => 0, fun _ => 5⟩

/-- First float draw 0.12 (the overdue due-date branch), later draws 0.9;
integers 0. -/
def rsDue : RS := ⟨fun n => if n = 0 then 12 / 100 else 9 / 10, fun _ => 0⟩

/-- Names oracle giving user 0 the name (a, b) and every later user the
name (c, d). -/
def namesAB : ℕ → String × String
  | 0 => ("a", "b")
  | _ + 1 => ("c", "d")

/-! Basic facts about the datetime and randomness model. -/

theorem toSecs_ofSecs (s : ℤ) : toSecs (ofSecs s) = s := by
  simp only [toSecs, ofSecs]
  omega

theorem weekday_lb (d : DT) : 0 ≤ weekday d := by
  unfold weekday; omega

theorem weekday_ub (d : DT) : weekday d < 7 := by
  unfold weekday; omega

theorem randInt_fst_bounds (rs : RS) (a b : ℤ) (ctr : ℕ) (hab : a ≤ b) :
    a ≤ (randInt rs a b ctr).1 ∧ (randInt rs a b ctr).1 ≤ b := by
  have hne : b - a + 1 ≠ 0 := by omega
  have h1 := Int.emod_nonneg (rs.ints ctr : ℤ) hne
  have h2 := Int.emod_lt_of_pos (rs.ints ctr : ℤ) (show (0:ℤ) < b - a + 1 by omega)
  simp only [randInt]
  omega

theorem daysBetween_facts (s e : DT) (hse : toSecs s ≤ toSecs e) :
    0 ≤ daysBetween s e ∧ toSecs s + daysBetween s e * 86400 ≤ toSecs e := by
  simp only [daysBetween]
  omega

/-! Analysis of the backward weekday walk (dates.py:50-51). -/

theorem backWeekday_eq_of_le (d : DT) (fuel : ℕ) (h : weekday d ≤ 4) :
    backWeekday d fuel = some d := by
  cases fuel <;> simp [backWeekday, show ¬ 4 < weekday d by omega]

theorem backWeekday_step (d : DT) (n : ℕ) (h : 4 < weekday d) :
    backWeekday d (n + 1) = backWeekday ⟨d.days - 1, d.secs⟩ n := by
  simp [backWeekday, h]

theorem backWeekday_zero_none (d : DT) (h : 4 < weekday d) :
    backWeekday d 0 = none := by
  simp [backWeekday, h]

theorem backWeekday_bounds (fuel : ℕ) (d d' : DT)
    (h : backWeekday d fuel = some d') :
    d'.secs = d.secs ∧ weekday d' ≤ 4 ∧ d.days - 2 ≤ d'.days ∧ d'.days ≤ d.days := by
  have hlb := weekday_lb d
  have hub := weekday_ub d
  rcases show weekday d ≤ 4 ∨ weekday d = 5 ∨ weekday d = 6 by omega with h4 | h5 | h6
  · rw [backWeekday_eq_of_le d fuel h4] at h
    cases h
    exact ⟨rfl, h4, by omega, by omega⟩
  · cases fuel with
    | zero => rw [backWeekday_zero_none d (by omega)] at h; cases h
    | succ n =>
      rw [backWeekday_step d n (by omega)] at h
      have hw1 : weekday (⟨d.days - 1, d.secs⟩ : DT) ≤ 4 := by
        unfold weekday at h5 ⊢; simp only at h5 ⊢; omega
      rw [backWeekday_eq_of_le _ n hw1] at h
      cases h
      exact ⟨rfl, hw1, by dsimp only; omega, by dsimp only; omega⟩
  · cases fuel with
    | zero => rw [backWeekday_zero_none d (by omega)] at h; cases h
    | succ n =>
      rw [backWeekday_step d n (by omega)] at h
      have hw1 : weekday (⟨d.days - 1, d.secs⟩ : DT) = 5 := by
        unfold weekday at h6 ⊢; simp only at h6 ⊢; omega
      cases n with
      | zero => rw [backWeekday_zero_none _ (by omega)] at h; cases h
      | succ m =>
        rw [backWeekday_step _ m (by omega)] at h
        have hw2 : weekday (⟨d.days - 1 - 1, d.secs⟩ : DT) ≤ 4 := by
          unfold weekday at h6 ⊢; simp only at h6 ⊢; omega
        rw [backWeekday_eq_of_le _ m hw2] at h
        cases h
        exact ⟨rfl, hw2, by dsimp only; omega, by dsimp only; omega⟩

theorem backWeekday_isSome (fuel : ℕ) (d : DT) (h2 : 2 ≤ fuel) :
    ∃ d', backWeekday d fuel = some d' := by
  have hlb := weekday_lb d
  have hub := weekday_ub d
  obtain ⟨f, rfl⟩ : ∃ f, fuel = f + 2 := ⟨fuel - 2, by omega⟩
  rcases show weekday d ≤ 4 ∨ weekday d = 5 ∨ weekday d = 6 by omega with h4 | h5 | h6
  · exact ⟨d, backWeekday_eq_of_le d _ h4⟩
  · rw [backWeekday_step d (f + 1) (by omega)]
    have hw1 : weekday (⟨d.days - 1, d.secs⟩ : DT) ≤ 4 := by
      unfold weekday at h5 ⊢; simp only at h5 ⊢; omega
    exact ⟨_, backWeekday_eq_of_le _ _ hw1⟩
  · rw [backWeekday_step d (f + 1) (by omega)]
    rw [backWeekday_step _ f (by unfold weekday at h6 ⊢; simp only at h6 ⊢; omega)]
    have hw2 : weekday (⟨d.days - 1 - 1, d.secs⟩ : DT) ≤ 4 := by
      unfold weekday at h6 ⊢; simp only at h6 ⊢; omega
    exact ⟨_, backWeekday_eq_of_le _ _ hw2⟩

/-! Invariants of the two day-selection loops. -/

theorem fwdLoop_bounds (rs : RS) (startD endD : DT) (dr : ℤ)
    (hdr : 0 ≤ dr) (hde : toSecs startD + dr * 86400 ≤ toSecs endD) :
    ∀ (fuel : ℕ) (cand : DT) (ctr : ℕ) (r : DT) (c : ℕ),
      cand.secs = startD.secs → startD.days - 2 ≤ cand.days →
      toSecs cand ≤ toSecs endD →
      fwdLoop rs startD endD dr cand fuel ctr = some (r, c) →
      r.secs = startD.secs ∧ startD.days - 2 ≤ r.days ∧ toSecs r ≤ toSecs endD := by
  intro fuel
  induction fuel with
  | zero =>
    intro cand ctr r c hsecs hlo hhi h
    by_cases hw : 4 < weekday cand
    · simp [fwdLoop, hw] at h
    · simp [fwdLoop, hw] at h
      obtain ⟨h1, h2⟩ := h
      subst h1
      exact ⟨hsecs, hlo, hhi⟩
  | succ n ih =>
    intro cand ctr r c hsecs hlo hhi h
    by_cases hw : 4 < weekday cand
    · rw [show fwdLoop rs startD endD dr cand (n + 1) ctr =
          (if toSecs endD < toSecs (addDays cand 1) then
            match backWeekday (addDays startD (randInt rs 0 dr ctr).1) n with
            | none => none
            | some cand3 =>
              fwdLoop rs startD endD dr cand3 n (randInt rs 0 dr ctr).2
          else fwdLoop rs startD endD dr (addDays cand 1) n ctr) from by
            simp [fwdLoop, hw]] at h
      by_cases hend : toSecs endD < toSecs (addDays cand 1)
      · rw [if_pos hend] at h
        obtain ⟨hk0, hkdr⟩ := randInt_fst_bounds rs 0 dr ctr hdr
        cases hbw : backWeekday (addDays startD (randInt rs 0 dr ctr).1) n with
        | none => rw [hbw] at h; cases h
        | some cand3 =>
          rw [hbw] at h
          obtain ⟨hb1, _, hb3, hb4⟩ := backWeekday_bounds n _ cand3 hbw
          refine ih cand3 _ r c ?_ ?_ ?_ h
          · rw [hb1]; rfl
          · simp only [addDays] at hb3; omega
          · simp only [addDays] at hb4 hb1
            simp only [toSecs] at hde ⊢
            omega
      · rw [if_neg hend] at h
        refine ih (addDays cand 1) ctr r c hsecs ?_ ?_ h
        · simp only [addDays]; omega
        · omega
    · simp [fwdLoop, hw] at h
      obtain ⟨h1, h2⟩ := h
      subst h1
      exact ⟨hsecs, hlo, hhi⟩

theorem wkndLoop_bounds (rs : RS) (startD endD : DT) (dr : ℤ)
    (hdr : 0 ≤ dr) (hde : toSecs startD + dr * 86400 ≤ toSecs endD) :
    ∀ (fuel : ℕ) (cand : DT) (ctr : ℕ) (r : DT) (c : ℕ),
      cand.secs = startD.secs → startD.days ≤ cand.days →
      toSecs cand ≤ toSecs endD →
      wkndLoop rs startD dr cand fuel ctr = some (r, c) →
      r.secs = startD.secs ∧ startD.days ≤ r.days ∧ toSecs r ≤ toSecs endD := by
  intro fuel
  induction fuel with
  | zero =>
    intro cand ctr r c hsecs hlo hhi h
    by_cases hw : weekday cand ≤ 4
    · simp [wkndLoop, hw] at h
    · simp [wkndLoop, hw] at h
      obtain ⟨h1, h2⟩ := h
      subst h1
      exact ⟨hsecs, hlo, hhi⟩
  | succ n ih =>
    intro cand ctr r c hsecs hlo hhi h
    by_cases hw : weekday cand ≤ 4
    · rw [show wkndLoop rs startD dr cand (n + 1) ctr =
          wkndLoop rs startD dr (addDays startD (randInt rs 0 dr ctr).1) n
            (randInt rs 0 dr ctr).2 from by simp [wkndLoop, hw]] at h
      obtain ⟨hk0, hkdr⟩ := randInt_fst_bounds rs 0 dr ctr hdr
      refine ih (addDays startD (randInt rs 0 dr ctr).1)
        (randInt rs 0 dr ctr).2 r c rfl ?_ ?_ h
      · simp only [addDays]; omega
      · simp only [addDays, toSecs] at hde ⊢; omega
    · simp [wkndLoop, hw] at h
      obtain ⟨h1, h2⟩ := h
      subst h1
      exact ⟨hsecs, hlo, hhi⟩

theorem pickDay_bounds (rs : RS) (startD endD : DT) (pw : Bool)
    (fuel ctr : ℕ) (cand : DT) (c : ℕ)
    (hse : toSecs startD ≤ toSecs endD)
    (h : pickDay rs startD endD pw fuel ctr = some (cand, c)) :
    cand.secs = startD.secs ∧ startD.days - 2 ≤ cand.days ∧
      toSecs cand ≤ toSecs endD := by
  obtain ⟨hdr, hde⟩ := daysBetween_facts startD endD hse
  simp only [pickDay, randFloat] at h
  set dr := daysBetween startD endD with hdrdef
  cases pw with
  | false =>
    simp only [Bool.false_eq_true, if_false] at h
    obtain ⟨hk0, hkdr⟩ := randInt_fst_bounds rs 0 dr ctr hdr
    simp only [Option.some.injEq, Prod.mk.injEq] at h
    obtain ⟨h1, h2⟩ := h
    subst h1
    refine ⟨rfl, by simp only [addDays]; omega, ?_⟩
    simp only [addDays, toSecs] at hde ⊢
    omega
  | true =>
    simp only [if_true] at h
    obtain ⟨hk0, hkdr⟩ := randInt_fst_bounds rs 0 dr (ctr + 1) hdr
    by_cases hr : rs.floats ctr < 85 / 100
    · rw [if_pos hr] at h
      refine fwdLoop_bounds rs startD endD dr hdr hde fuel
        (addDays startD (randInt rs 0 dr (ctr + 1)).1)
        (randInt rs 0 dr (ctr + 1)).2 cand c rfl ?_ ?_ h
      · simp only [addDays]; omega
      · simp only [addDays, toSecs] at hde ⊢; omega
    · rw [if_neg hr] at h
      have hres := wkndLoop_bounds rs startD endD dr hdr hde fuel
        (addDays startD (randInt rs 0 dr (ctr + 1)).1)
        (randInt rs 0 dr (ctr + 1)).2 cand c rfl
        (by simp only [addDays]; omega)
        (by simp only [addDays, toSecs] at hde ⊢; omega) h
      exact ⟨hres.1, by omega, hres.2.2⟩

theorem pickHour_bounds (rs : RS) (hb : Bool) (ctr : ℕ) :
    0 ≤ (pickHour rs hb ctr).1 ∧ (pickHour rs hb ctr).1 ≤ 23 := by
  cases hb with
  | false =>
    simp only [pickHour, Bool.false_eq_true, if_false]
    have := randInt_fst_bounds rs 0 23 ctr (by omega)
    omega
  | true =>
    simp only [pickHour, if_true, randFloat]
    by_cases hr : rs.floats ctr < 70 / 100
    · rw [if_pos hr]
      have := randInt_fst_bounds rs 9 17 (ctr + 1) (by omega)
      omega
    · rw [if_neg hr]
      have := randInt_fst_bounds rs 0 23 (ctr + 1) (by omega)
      omega

/-- Day-and-time bounds for `generate_created_at`: the chosen day lies
between two days before the window start's day and the window end's day,
and the installed time of day is a valid second count. -/
theorem generate_created_at_bounds (rs : RS) (startD endD : DT)
    (pw hb : Bool) (fuel ctr : ℕ) (r : DT) (c : ℕ)
    (hse : toSecs startD ≤ toSecs endD)
    (hs0 : 0 ≤ startD.secs)
    (he1 : endD.secs < 86400)
    (h : generate_created_at rs startD endD pw hb fuel ctr = some (r, c)) :
    startD.days - 2 ≤ r.days ∧ r.days ≤ endD.days ∧
      0 ≤ r.secs ∧ r.secs < 86400 := by
  simp only [generate_created_at] at h
  cases hp : pickDay rs startD endD pw fuel ctr with
  | none => rw [hp] at h; cases h
  | some p =>
    obtain ⟨cand, c1⟩ := p
    obtain ⟨hq1, hq2, hq3⟩ := pickDay_bounds rs startD endD pw fuel ctr cand c1 hse hp
    rw [hp] at h
    obtain ⟨hh1, hh2⟩ := pickHour_bounds rs hb c1
    obtain ⟨hm1, hm2⟩ := randInt_fst_bounds rs 0 59 (pickHour rs hb c1).2 (by omega)
    obtain ⟨hs1, hs2⟩ := randInt_fst_bounds rs 0 59
      (randInt rs 0 59 (pickHour rs hb c1).2).2 (by omega)
    simp only [Option.some.injEq, Prod.mk.injEq] at h
    obtain ⟨h1, h2⟩ := h
    subst h1
    simp only [toSecs] at hq3
    refine ⟨by dsimp only; omega, by dsimp only; omega, by dsimp only; omega,
      by dsimp only; omega⟩

/-! Termination analysis of the day-selection loops. -/

theorem fwdLoop_exit (rs : RS) (startD endD : DT) (dr : ℤ) (cand : DT)
    (fuel ctr : ℕ) (hw : weekday cand ≤ 4) :
    fwdLoop rs startD endD dr cand fuel ctr = some (cand, ctr) := by
  cases fuel <;> simp [fwdLoop, show ¬ 4 < weekday cand by omega]

theorem fwdLoop_step (rs : RS) (startD endD : DT) (dr : ℤ) (cand : DT)
    (n ctr : ℕ) (hw : 4 < weekday cand) :
    fwdLoop rs startD endD dr cand (n + 1) ctr =
      if toSecs endD < toSecs (addDays cand 1) then
        match backWeekday (addDays startD (randInt rs 0 dr ctr).1) n with
        | none => none
        | some cand3 =>
          fwdLoop rs startD endD dr cand3 n (randInt rs 0 dr ctr).2
      else fwdLoop rs startD endD dr (addDays cand 1) n ctr := by
  simp [fwdLoop, hw]

/-- The redraw-with-backward-walk branch always produces a weekday
within two steps, so one unfolding of the forward loop with at least two
fuel left either exits or hands a weekday to the next iteration. -/
theorem fwdLoop_redraw_some (rs : RS) (startD endD : DT) (dr : ℤ)
    (n ctr : ℕ) (h2 : 2 ≤ n) :
    ∃ p, (match backWeekday (addDays startD (randInt rs 0 dr ctr).1) n with
      | none => none
      | some cand3 =>
        fwdLoop rs startD endD dr cand3 n (randInt rs 0 dr ctr).2) =
        some p := by
  obtain ⟨d', hd'⟩ := backWeekday_isSome n (addDays startD (randInt rs 0 dr ctr).1) h2
  obtain ⟨_, hw4, _, _⟩ := backWeekday_bounds n _ d' hd'
  rw [hd']
  exact ⟨_, fwdLoop_exit rs startD endD dr d' n _ hw4⟩

/-- The weekday branch of the day selection always terminates: four
units of fuel suffice for the forward walk, the window-overflow redraw
and the backward walk combined, for every window and every draw. -/
theorem fwdLoop_isSome (rs : RS) (startD endD : DT) (dr : ℤ)
    (f : ℕ) (cand : DT) (ctr : ℕ) :
    ∃ p, fwdLoop rs startD endD dr cand (f + 4) ctr = some p := by
  have hlb := weekday_lb cand
  have hub := weekday_ub cand
  rcases show weekday cand ≤ 4 ∨ weekday cand = 5 ∨ weekday cand = 6 by omega
    with h4 | h5 | h6
  · exact ⟨_, fwdLoop_exit rs startD endD dr cand _ ctr h4⟩
  · rw [show f + 4 = (f + 3) + 1 by omega,
      fwdLoop_step rs startD endD dr cand (f + 3) ctr (by omega)]
    by_cases hend : toSecs endD < toSecs (addDays cand 1)
    · rw [if_pos hend]
      exact fwdLoop_redraw_some rs startD endD dr (f + 3) ctr (by omega)
    · rw [if_neg hend]
      have hw6 : weekday (addDays cand 1) = 6 := by
        simp only [weekday, addDays] at h5 ⊢
        omega
      rw [show f + 3 = (f + 2) + 1 by omega,
        fwdLoop_step rs startD endD dr (addDays cand 1) (f + 2) ctr (by omega)]
      by_cases hend2 : toSecs endD < toSecs (addDays (addDays cand 1) 1)
      · rw [if_pos hend2]
        exact fwdLoop_redraw_some rs startD endD dr (f + 2) ctr (by omega)
      · rw [if_neg hend2]
        have hw0 : weekday (addDays (addDays cand 1) 1) = 0 := by
          simp only [weekday, addDays] at h5 ⊢
          omega
        exact ⟨_, fwdLoop_exit rs startD endD dr _ (f + 2) ctr (by omega)⟩
  · rw [show f + 4 = (f + 3) + 1 by omega,
      fwdLoop_step rs startD endD dr cand (f + 3) ctr (by omega)]
    by_cases hend : toSecs endD < toSecs (addDays cand 1)
    · rw [if_pos hend]
      exact fwdLoop_redraw_some rs startD endD dr (f + 3) ctr (by omega)
    · rw [if_neg hend]
      have hw0 : weekday (addDays cand 1) = 0 := by
        simp only [weekday, addDays] at h6 ⊢
        omega
      exact ⟨_, fwdLoop_exit rs startD endD dr _ (f + 3) ctr (by omega)⟩

/-- The weekend-selection loop never exits when no day of the sampled
range is a weekend: it redraws forever. -/
theorem wkndLoop_none (rs : RS) (startD : DT) (dr : ℤ) (hdr : 0 ≤ dr)
    (hall : ∀ k : ℤ, 0 ≤ k → k ≤ dr → weekday (addDays startD k) ≤ 4) :
    ∀ (fuel : ℕ) (cand : DT) (ctr : ℕ), weekday cand ≤ 4 →
      wkndLoop rs startD dr cand fuel ctr = none := by
  intro fuel
  induction fuel with
  | zero =>
    intro cand ctr hc
    simp [wkndLoop, hc]
  | succ n ih =>
    intro cand ctr hc
    have hk := randInt_fst_bounds rs 0 dr ctr hdr
    simp only [wkndLoop, if_pos hc]
    exact ih _ _ (hall _ hk.1 hk.2)

/-! Analysis of `generate_due_date`. -/

theorem fwdDateWeekday_mono (fuel : ℕ) :
    ∀ (d d' : ℤ), fwdDateWeekday d fuel = some d' → d ≤ d' := by
  induction fuel with
  | zero =>
    intro d d' h
    by_cases hw : 4 < d % 7
    · simp [fwdDateWeekday, hw] at h
    · simp [fwdDateWeekday, hw] at h
      omega
  | succ n ih =>
    intro d d' h
    by_cases hw : 4 < d % 7
    · simp only [fwdDateWeekday, if_pos hw] at h
      have := ih (d + 1) d' h
      omega
    · simp [fwdDateWeekday, hw] at h
      omega

/-- Every due date emitted by `generate_due_date` is on or after the
creation date: the overdue branch adds `{0,1}` days, the horizon branches
add at least one day, and the weekend-avoidance loop only moves forward. -/
theorem generate_due_date_ge_created (rs : RS) (created : DT) (fuel ctr : ℕ)
    (d : ℤ) (c : ℕ)
    (h : generate_due_date rs created fuel ctr = some (some d, c)) :
    created.days ≤ d := by
  simp only [generate_due_date, randFloat] at h
  by_cases h10 : rs.floats ctr < 10 / 100
  · simp [if_pos h10] at h
  · rw [if_neg h10] at h
    by_cases h15 : rs.floats ctr < 15 / 100
    · rw [if_pos h15] at h
      obtain ⟨hj0, hj1⟩ := randInt_fst_bounds rs 0 1 (ctr + 1) (by omega)
      set j := (randInt rs 0 1 (ctr + 1)).1 with hj
      by_cases hcond : rs.floats (randInt rs 0 1 (ctr + 1)).2 < 85 / 100 ∧
          4 < (created.days + j) % 7
      · rw [if_pos hcond] at h
        cases hfd : fwdDateWeekday (created.days + j) fuel with
        | none => rw [hfd] at h; cases h
        | some d2 =>
          rw [hfd] at h
          have := fwdDateWeekday_mono fuel _ _ hfd
          simp only [Option.some.injEq, Prod.mk.injEq] at h
          omega
      · rw [if_neg hcond] at h
        simp only [Option.some.injEq, Prod.mk.injEq] at h
        omega
    · rw [if_neg h15] at h
      have hda : 1 ≤ (if rs.floats ctr < 40 / 100 then randInt rs 1 7 (ctr + 1)
          else if rs.floats ctr < 80 / 100 then randInt rs 8 30 (ctr + 1)
          else randInt rs 31 90 (ctr + 1)).1 := by
        by_cases h40 : rs.floats ctr < 40 / 100
        · rw [if_pos h40]
          have := randInt_fst_bounds rs 1 7 (ctr + 1) (by omega)
          omega
        · rw [if_neg h40]
          by_cases h80 : rs.floats ctr < 80 / 100
          · rw [if_pos h80]
            have := randInt_fst_bounds rs 8 30 (ctr + 1) (by omega)
            omega
          · rw [if_neg h80]
            have := randInt_fst_bounds rs 31 90 (ctr + 1) (by omega)
            omega
      set da := (if rs.floats ctr < 40 / 100 then randInt rs 1 7 (ctr + 1)
          else if rs.floats ctr < 80 / 100 then randInt rs 8 30 (ctr + 1)
          else randInt rs 31 90 (ctr + 1)).1 with hda2
      by_cases hcond : rs.floats (if rs.floats ctr < 40 / 100 then
            randInt rs 1 7 (ctr + 1)
          else if rs.floats ctr < 80 / 100 then randInt rs 8 30 (ctr + 1)
          else randInt rs 31 90 (ctr + 1)).2 < 85 / 100 ∧
          4 < (created.days + da) % 7
      · rw [if_pos hcond] at h
        cases hfd : fwdDateWeekday (created.days + da) fuel with
        | none => rw [hfd] at h; cases h
        | some d2 =>
          rw [hfd] at h
          have := fwdDateWeekday_mono fuel _ _ hfd
          simp only [Option.some.injEq, Prod.mk.injEq] at h
          omega
      · rw [if_neg hcond] at h
        simp only [Option.some.injEq, Prod.mk.injEq] at h
        omega

/-! Analysis of `generate_completed_at` (naive embedding). -/

/-- The reconciled candidate never exceeds the due instant plus 3 days. -/
theorem dueAdjust_le (rs : RS) (created : DT) (cycle : ℤ) (d : ℤ) (c2 : ℕ) :
    toSecs (dueAdjust rs created cycle d c2).1 ≤ d * 86400 + 3 * 86400 := by
  unfold dueAdjust
  by_cases hlate : toSecs ⟨d, 0⟩ < toSecs (addDays created cycle)
  · rw [if_pos hlate]
    by_cases hontime : rs.floats c2 < 80 / 100
    · rw [if_pos hontime]
      obtain ⟨ha1, ha2⟩ := randInt_fst_bounds rs 1 24 (c2 + 1) (by omega)
      simp only [toSecs_ofSecs]
      simp only [toSecs]
      omega
    · rw [if_neg hontime]
      obtain ⟨ha1, ha2⟩ := randInt_fst_bounds rs 1 3 (c2 + 1) (by omega)
      simp only [addDays, toSecs]
      omega
  · rw [if_neg hlate]
    simp only [toSecs] at hlate ⊢
    omega

/-- Guarantees of `generate_completed_at`: a non-null completion instant
is always strictly after creation (the final repair enforces it), and
whenever the due date is on or after the creation date — which
`generate_due_date` always arranges — the completion instant is at most
three days after the due date's midnight instant. -/
theorem generate_completed_at_spec (rs : RS) (created : DT) (due : Option ℤ)
    (rate : ℚ) (ctr : ℕ) (c : DT)
    (hs0 : 0 ≤ created.secs) (hs1 : created.secs < 86400)
    (h : (generate_completed_at rs created due rate ctr).1 = some c) :
    toSecs created < toSecs c ∧
      ∀ d, due = some d → created.days ≤ d →
        toSecs c ≤ d * 86400 + 3 * 86400 := by
  simp only [generate_completed_at] at h
  by_cases hr : rate < rs.floats ctr
  · rw [if_pos hr] at h
    cases h
  · rw [if_neg hr] at h
    have hcyc : 1 ≤ max 1 (Int.ofNat (rs.ints (ctr + 1))) := le_max_left _ _
    set cycle := max 1 (Int.ofNat (rs.ints (ctr + 1))) with hcycdef
    cases due with
    | none =>
      simp only at h
      have hgt : ¬ toSecs (addDays created cycle) ≤ toSecs created := by
        simp only [addDays, toSecs]
        omega
      rw [if_neg hgt] at h
      simp only [Option.some.injEq] at h
      subst h
      constructor
      · simp only [addDays, toSecs]
        omega
      · intro d hd
        cases hd
    | some d =>
      simp only at h
      obtain ⟨hb1, hb2⟩ := randInt_fst_bounds rs 1 24
        (dueAdjust rs created cycle d (ctr + 1 + 1)).2 (by omega)
      have hadj := dueAdjust_le rs created cycle d (ctr + 1 + 1)
      by_cases hrep :
          toSecs (dueAdjust rs created cycle d (ctr + 1 + 1)).1 ≤ toSecs created
      · rw [if_pos hrep] at h
        simp only [Option.some.injEq] at h
        subst h
        rw [toSecs_ofSecs]
        constructor
        · omega
        · intro d2 hd2 hdge
          simp only [Option.some.injEq] at hd2
          subst hd2
          simp only [toSecs] at hdge ⊢
          omega
      · rw [if_neg hrep] at h
        simp only [Option.some.injEq] at h
        subst h
        constructor
        · omega
        · intro d2 hd2 hdge
          simp only [Option.some.injEq] at hd2
          subst hd2
          exact hadj

end Asana

namespace Asana

/-! Analysis of the email-uniqueness machinery. -/

theorem attemptEmail_some_not_mem (rs : RS) (first last domain : String)
    (gen : List String) :
    ∀ (att ctr : ℕ) (e : String) (c2 : ℕ),
      attemptEmail rs first last domain gen att ctr = (some e, c2) →
      e ∉ gen := by
  intro att
  induction att with
  | zero =>
    intro ctr e c2 h
    simp [attemptEmail] at h
  | succ n ih =>
    intro ctr e c2 h
    simp only [attemptEmail] at h
    by_cases hmem :
        gen.contains (generate_email (rs.floats ctr) first last domain) = true
    · rw [if_pos hmem] at h
      exact ih _ _ _ h
    · rw [if_neg hmem] at h
      simp only [Prod.mk.injEq, Option.some.injEq] at h
      obtain ⟨h1, _⟩ := h
      subst h1
      simpa using hmem

theorem genUsersGo_nodup (rs : RS) (names : ℕ → String × String)
    (domain : String) :
    ∀ (n i ctr : ℕ) (gen : List String),
      (∀ p ∈ genUsersGo rs names domain n i ctr gen, p.2 = false) →
      ((genUsersGo rs names domain n i ctr gen).map Prod.fst).Nodup ∧
        ∀ e ∈ (genUsersGo rs names domain n i ctr gen).map Prod.fst,
          e ∉ gen := by
  intro n
  induction n with
  | zero =>
    intro i ctr gen _
    simp [genUsersGo]
  | succ m ih =>
    intro i ctr gen hflag
    cases hat : attemptEmail rs (names i).1 (names i).2 domain gen 10 ctr with
    | mk o ctr2 =>
      cases o with
      | some e =>
        have hrw : genUsersGo rs names domain (m + 1) i ctr gen =
            (e, false) :: genUsersGo rs names domain m (i + 1) ctr2 (e :: gen) := by
          simp only [genUsersGo, hat]
        rw [hrw] at hflag ⊢
        have hflag2 : ∀ p ∈ genUsersGo rs names domain m (i + 1) ctr2 (e :: gen),
            p.2 = false := fun p hp => hflag p (List.mem_cons_of_mem _ hp)
        obtain ⟨hnd, hnin⟩ := ih (i + 1) ctr2 (e :: gen) hflag2
        have hen : e ∉ gen := attemptEmail_some_not_mem rs _ _ domain gen 10 ctr e ctr2 hat
        constructor
        · simp only [List.map_cons, List.nodup_cons]
          refine ⟨fun hmem => ?_, hnd⟩
          exact (hnin e hmem) (List.mem_cons_self e gen)
        · intro x hx
          simp only [List.map_cons, List.mem_cons] at hx
          rcases hx with rfl | hx
          · exact hen
          · intro hxg
            exact (hnin x hx) (List.mem_cons_of_mem e hxg)
      | none =>
        have hrw : genUsersGo rs names domain (m + 1) i ctr gen =
            (fallbackEmail (names i).1 (names i).2 domain (rs.ints ctr2), true) ::
              genUsersGo rs names domain m (i + 1) (ctr2 + 1)
                (fallbackEmail (names i).1 (names i).2 domain (rs.ints ctr2) :: gen) := by
          simp only [genUsersGo, hat]
        rw [hrw] at hflag
        have := hflag _ (List.mem_cons_self _ _)
        simp at this

/-! Analysis of the per-project pipeline. -/

/-- Boolean success test for a stage outcome. -/
def exOk {α : Type} : Except String α → Bool
  | .ok _ => true
  | .error _ => false

theorem generate_tasks_pipeline_ok :
    ∀ ps : List ProjStub, (∀ p ∈ ps, exOk p.fieldsR = true) →
      generate_tasks_pipeline ps =
        .ok ((ps.filter (fun p => exOk p.prepR && exOk p.taskGenR)).map
          ProjStub.pid) := by
  intro ps
  induction ps with
  | nil => intro _; rfl
  | cons p rest ih =>
    intro hall
    have hrest := ih (fun q hq => hall q (List.mem_cons_of_mem _ hq))
    have hp := hall p (List.mem_cons_self _ _)
    cases hprep : p.prepR with
    | error e =>
      rw [show generate_tasks_pipeline (p :: rest) =
          generate_tasks_pipeline rest from by
        simp only [generate_tasks_pipeline, hprep]]
      rw [hrest, List.filter_cons]
      rw [show (exOk p.prepR && exOk p.taskGenR) = false from by
        rw [hprep]; rfl]
      simp
    | ok u =>
      cases htg : p.taskGenR with
      | error e =>
        rw [show generate_tasks_pipeline (p :: rest) =
            generate_tasks_pipeline rest from by
          simp only [generate_tasks_pipeline, hprep, htg]]
        rw [hrest, List.filter_cons]
        rw [show (exOk p.prepR && exOk p.taskGenR) = false from by
          rw [hprep, htg]; rfl]
        simp
      | ok ts =>
        cases hf : p.fieldsR with
        | error e => rw [hf] at hp; simp [exOk] at hp
        | ok fs =>
          rw [show generate_tasks_pipeline (p :: rest) =
              match generate_tasks_pipeline rest with
              | .error e => .error e
              | .ok l => .ok (p.pid :: l) from by
            simp only [generate_tasks_pipeline, hprep, htg, hf]]
          rw [hrest, List.filter_cons]
          rw [show (exOk p.prepR && exOk p.taskGenR) = true from by
            rw [hprep, htg]; rfl]
          simp

/-! Analysis of `weighted_choice`. -/

theorem weighted_choice_mem (u : ℚ) (choices : List (String × ℚ))
    (hne : choices ≠ [])
    (hpos : 0 < (cumWeights (choices.map Prod.snd)).getLastD 0) :
    ∃ v, weighted_choice u choices = .ok v ∧ v ∈ choices.map Prod.fst := by
  cases choices with
  | nil => exact absurd rfl hne
  | cons hd tl =>
    obtain ⟨v0, w0⟩ := hd
    simp only [weighted_choice]
    rw [if_neg (not_le.mpr hpos)]
    refine ⟨_, rfl, ?_⟩
    have hidx : bisectRight (cumWeights (((v0, w0) :: tl).map Prod.snd))
        (u * (cumWeights (((v0, w0) :: tl).map Prod.snd)).getLastD 0)
        (((v0, w0) :: tl).length - 1) < (((v0, w0) :: tl).map Prod.fst).length := by
      have h1 := List.countP_le_length
        (fun w => decide (w ≤ u * (cumWeights (((v0, w0) :: tl).map Prod.snd)).getLastD 0))
        (l := (cumWeights (((v0, w0) :: tl).map Prod.snd)).take
          (((v0, w0) :: tl).length - 1))
      have h2 : ((cumWeights (((v0, w0) :: tl).map Prod.snd)).take
          (((v0, w0) :: tl).length - 1)).length ≤ ((v0, w0) :: tl).length - 1 := by
        simp
      simp only [bisectRight, List.length_map, List.length_cons]
      simp only [List.length_cons] at h1 h2 ⊢
      omega
    rw [List.getD_eq_getElem _ _ hidx]
    exact List.getElem_mem hidx

end Asana

namespace Asana

/-! Claim theorems. -/

/-- C1 counterexample: the claim `created_at(child) ≥ created_at(parent)`
is false.  With the parent created on a Sunday (day 6) and the window end
later the same Sunday, the weekday fixup's redraw path walks the
candidate backwards to the preceding Friday (day 4), so the subtask's
creation instant precedes its parent's by two days. -/
theorem C1_subtask_created_at_cex :
    subtask_created_at rsBack ⟨6, 0⟩ ⟨6, 82800⟩ 10 0 = some (⟨4, 0⟩, 7) ∧
      toSecs ⟨4, 0⟩ < toSecs ⟨6, 0⟩ := by
  constructor
  · norm_num [subtask_created_at, generate_created_at, pickDay, pickHour,
      fwdLoop, backWeekday, wkndLoop, randInt, randFloat, daysBetween, toSecs,
      addDays, weekday, rsBack]
  · norm_num [toSecs]

/-- C1 (amended): a subtask's creation instant can precede its parent's,
but by strictly less than 3 days: its calendar day is at least the
parent's day minus 2 (the redraw path of `generate_created_at` can walk
at most two days before the window start) and at most the window end's
day. -/
theorem C1_subtask_created_at_bounds (rs : RS) (parentDT endD : DT)
    (fuel ctr : ℕ) (r : DT) (c : ℕ)
    (hse : toSecs parentDT ≤ toSecs endD)
    (hs0 : 0 ≤ parentDT.secs) (hs1 : parentDT.secs < 86400)
    (he1 : endD.secs < 86400)
    (h : subtask_created_at rs parentDT endD fuel ctr = some (r, c)) :
    parentDT.days - 2 ≤ r.days ∧ r.days ≤ endD.days ∧
      toSecs parentDT - 3 * 86400 < toSecs r := by
  obtain ⟨h1, h2, h3, h4⟩ := generate_created_at_bounds rs parentDT endD
    true true fuel ctr r c hse hs0 he1 h
  refine ⟨h1, h2, ?_⟩
  simp only [toSecs]
  omega

/-- C1 witness. -/
theorem C1_subtask_created_at_bounds_witness :
    (0 : ℤ) - 2 ≤ (0 : ℤ) ∧ (0 : ℤ) ≤ (4 : ℤ) ∧
      toSecs ⟨0, 0⟩ - 3 * 86400 < toSecs ⟨0, 32400⟩ := by
  have h : subtask_created_at rsZero ⟨0, 0⟩ ⟨4, 0⟩ 10 0 =
      some (⟨0, 32400⟩, 6) := by
    norm_num [subtask_created_at, generate_created_at, pickDay, pickHour,
      fwdLoop, backWeekday, wkndLoop, randInt, randFloat, daysBetween, toSecs,
      addDays, weekday, rsZero]
  exact C1_subtask_created_at_bounds rsZero ⟨0, 0⟩ ⟨4, 0⟩ 10 0 ⟨0, 32400⟩ 6
    (by norm_num [toSecs]) (by norm_num) (by norm_num) (by norm_num) h

/-- C2 counterexample: the claim `due_date ≥ created_at.date` for every
record is false for subtasks: a subtask created on day 20 whose parent's
due date is day 0 receives due date `parent_due - randint(0,7)`, here day
0, which is 20 days before its own creation date. -/
theorem C2_subtask_due_date_cex :
    subtask_due_date rsZero ⟨20, 0⟩ (some 0) 5 0 = some (some 0, 1) ∧
      ¬ ((20 : ℤ) ≤ 0) := by
  decide

/-- C2 (amended): every due date produced by `generate_due_date` — the
path used for tasks and for the subtask fallback — is on or after the
creation date; only the parent-derived subtask due dates can precede it. -/
theorem C2_due_date_ge_creation :
    (∀ (rs : RS) (created : DT) (fuel ctr : ℕ) (d : ℤ) (c : ℕ),
      generate_due_date rs created fuel ctr = some (some d, c) →
        created.days ≤ d) ∧
    (∀ (rs : RS) (created : DT) (fuel ctr : ℕ) (d : ℤ) (c : ℕ),
      subtask_due_date rs created none fuel ctr = some (some d, c) →
        created.days ≤ d) := by
  constructor
  · intro rs created fuel ctr d c h
    exact generate_due_date_ge_created rs created fuel ctr d c h
  · intro rs created fuel ctr d c h
    exact generate_due_date_ge_created rs created fuel ctr d c h

/-- C2 witness. -/
theorem C2_due_date_ge_creation_witness : (⟨0, 3600⟩ : DT).days ≤ (0 : ℤ) := by
  refine C2_due_date_ge_creation.1 rsDue ⟨0, 3600⟩ 10 0 0 3 ?_
  norm_num [generate_due_date, randInt, randFloat, rsDue, fwdDateWeekday]

/-- C3 counterexample: the claim `start ≤ result ≤ end` is false.  With
window start Monday 10:00 and end Monday 23:59:59, the day selection
returns the start day and the business-hour draw installs 09:00, so the
returned instant is one hour before the window start. -/
theorem C3_window_containment_cex :
    generate_created_at rsZero ⟨0, 36000⟩ ⟨0, 86399⟩ true true 10 0 =
      some (⟨0, 32400⟩, 6) ∧ toSecs ⟨0, 32400⟩ < toSecs ⟨0, 36000⟩ := by
  constructor
  · norm_num [generate_created_at, pickDay, pickHour, fwdLoop, backWeekday,
      wkndLoop, randInt, randFloat, daysBetween, toSecs, addDays, weekday,
      rsZero]
  · norm_num [toSecs]

/-- C3 (amended): window containment holds at day granularity with a
two-day underflow margin: for `start ≤ end` every instant returned by
`generate_created_at` has its calendar day in
`[start.day - 2, end.day]`, hence lies strictly between `start - 3 days`
and `end + 1 day`; the instant itself can leave `[start, end]` only
because the drawn time of day replaces the window ends' time of day and
because the weekday redraw can step at most two days before the start. -/
theorem C3_window_containment_day_level (rs : RS) (startD endD : DT)
    (pw hb : Bool) (fuel ctr : ℕ) (r : DT) (c : ℕ)
    (hse : toSecs startD ≤ toSecs endD)
    (hs0 : 0 ≤ startD.secs) (hs1 : startD.secs < 86400)
    (he0 : 0 ≤ endD.secs) (he1 : endD.secs < 86400)
    (h : generate_created_at rs startD endD pw hb fuel ctr = some (r, c)) :
    startD.days - 2 ≤ r.days ∧ r.days ≤ endD.days ∧
      toSecs startD - 3 * 86400 < toSecs r ∧
      toSecs r < toSecs endD + 86400 := by
  obtain ⟨h1, h2, h3, h4⟩ := generate_created_at_bounds rs startD endD
    pw hb fuel ctr r c hse hs0 he1 h
  refine ⟨h1, h2, ?_, ?_⟩ <;> simp only [toSecs] <;> omega

/-- C3 witness. -/
theorem C3_window_containment_day_level_witness :
    (0 : ℤ) - 2 ≤ (0 : ℤ) ∧ (0 : ℤ) ≤ (4 : ℤ) ∧
      toSecs ⟨0, 0⟩ - 3 * 86400 < toSecs ⟨0, 32400⟩ ∧
      toSecs ⟨0, 32400⟩ < toSecs ⟨4, 0⟩ + 86400 := by
  have h : generate_created_at rsZero ⟨0, 0⟩ ⟨4, 0⟩ true true 10 0 =
      some (⟨0, 32400⟩, 6) := by
    norm_num [generate_created_at, pickDay, pickHour, fwdLoop, backWeekday,
      wkndLoop, randInt, randFloat, daysBetween, toSecs, addDays, weekday,
      rsZero]
  exact C3_window_containment_day_level rsZero ⟨0, 0⟩ ⟨4, 0⟩ true true 10 0
    ⟨0, 32400⟩ 6 (by norm_num [toSecs]) (by norm_num) (by norm_num)
    (by norm_num) (by norm_num) h

end Asana

namespace Asana

/-- C4 counterexample: the bound `completed_at ≤ dueInstant + 3 days` is
false when the due date precedes the creation date, which subtask
generation can produce (parent-derived due dates).  With creation day 100
and due date day 0, the on-time pull-back lands before creation, the
final repair pushes completion to creation + 6 hours, which is about 97
days after `dueInstant + 3 days`. -/
theorem C4_completed_at_cex :
    generate_completed_at rsFive ⟨100, 0⟩ (some 0) 1 0 =
      (some ⟨100, 21600⟩, 5) ∧
    ¬ (toSecs ⟨100, 21600⟩ ≤ 0 * 86400 + 3 * 86400) := by
  constructor
  · norm_num [generate_completed_at, dueAdjust, randInt, randFloat, toSecs,
      addDays, ofSecs, rsFive]
  · norm_num [toSecs]

/-- C4 (amended): a non-null instant returned by `generate_completed_at`
is always strictly after creation (the final repair enforces it), and
whenever the due date is on or after the creation date — which
`generate_due_date` guarantees for tasks — the completion instant is
never later than the due date's midnight instant plus 3 days.  (Subtask
records escape both bounds through the parent-derived due date shown in
the counterexample and through the `completed_at` sampled with
`generate_created_at` when the parent is completed.) -/
theorem C4_completed_at_spec (rs : RS) (created : DT) (due : Option ℤ)
    (rate : ℚ) (ctr : ℕ) (c : DT)
    (hs0 : 0 ≤ created.secs) (hs1 : created.secs < 86400)
    (h : (generate_completed_at rs created due rate ctr).1 = some c) :
    toSecs created < toSecs c ∧
      ∀ d, due = some d → created.days ≤ d →
        toSecs c ≤ d * 86400 + 3 * 86400 :=
  generate_completed_at_spec rs created due rate ctr c hs0 hs1 h

/-- C4 witness. -/
theorem C4_completed_at_spec_witness :
    toSecs ⟨0, 0⟩ < toSecs ⟨5, 0⟩ ∧
      ∀ d, (some 5 : Option ℤ) = some d → (⟨0, 0⟩ : DT).days ≤ d →
        toSecs ⟨5, 0⟩ ≤ d * 86400 + 3 * 86400 := by
  have h : (generate_completed_at rsFive ⟨0, 0⟩ (some 5) 1 0).1 =
      some ⟨5, 0⟩ := by
    norm_num [generate_completed_at, dueAdjust, randInt, randFloat, toSecs,
      addDays, ofSecs, rsFive]
  exact C4_completed_at_spec rsFive ⟨0, 0⟩ (some 5) 1 0 ⟨5, 0⟩
    (by norm_num) (by norm_num) h

/-- C5: `generate_completed_at` does compare a timezone-aware instant to
a naive one.  When `pytz` is unavailable and `created_at` is aware with a
due date present, the code makes `completed_at` and the due instant naive
but leaves `created_at` aware, so the final `completed_at <= created_at`
comparison raises `TypeError` — the embedding returns the error — while
the same draws with `pytz` available (or a naive `created_at`) return
normally. -/
theorem C5_pytz_naive_comparison_raises :
    generate_completed_at_pytz false rsFive ⟨⟨0, 0⟩, true⟩ (some 5) 1 0 =
      .error "TypeError" ∧
    generate_completed_at_pytz true rsFive ⟨⟨0, 0⟩, true⟩ (some 5) 1 0 =
      .ok (some ⟨⟨5, 0⟩, true⟩, 2) ∧
    generate_completed_at_pytz false rsFive ⟨⟨0, 0⟩, false⟩ (some 5) 1 0 =
      .ok (some ⟨⟨5, 0⟩, false⟩, 2) := by
  refine ⟨?_, ?_, ?_⟩ <;>
    norm_num [generate_completed_at_pytz, randInt, randFloat, toSecs, addDays,
      ofSecs, rsFive]

/-- C6 counterexample: the claim that the day-selection loops retry a
bounded number of times and then accept a less-preferred day is false for
the weekend branch: on a Monday-to-Friday window (days 0..4, which
contains no weekend day), the weekend-selection loop redraws forever, so
`generate_created_at` returns `none` for every amount of fuel whenever
the first float draw selects the 15% weekend branch. -/
theorem C6_weekend_branch_diverges_cex :
    ¬ ∃ (fuel : ℕ) (p : DT × ℕ),
      generate_created_at rsWknd ⟨0, 0⟩ ⟨4, 0⟩ true true fuel 0 = some p := by
  rintro ⟨fuel, p, h⟩
  have hdB : daysBetween ⟨0, 0⟩ ⟨4, 0⟩ = 4 := by
    norm_num [daysBetween, toSecs]
  have hk := randInt_fst_bounds rsWknd 0 4 (0 + 1) (by norm_num)
  have hpd : pickDay rsWknd ⟨0, 0⟩ ⟨4, 0⟩ true fuel 0 = none := by
    simp only [pickDay, randFloat, if_true, hdB]
    rw [if_neg (by norm_num [rsWknd])]
    refine wkndLoop_none rsWknd ⟨0, 0⟩ 4 (by norm_num) ?_ fuel _ _ ?_
    · intro k hk0 hk4
      simp only [weekday, addDays]
      omega
    · simp only [weekday, addDays]
      omega
  simp only [generate_created_at, hpd] at h
  simp at h

/-- C6 (amended): the 85% weekday branch of the day selection does
terminate within a fixed bound — four units of fuel cover the forward
walk, the overflow redraw and the backward walk for every window and
every draw — but the 15% weekend branch retries unboundedly and, as the
counterexample shows, never accepts a less-preferred day. -/
theorem C6_weekday_branch_terminates (rs : RS) (startD endD : DT)
    (hb : Bool) (ctr fuel : ℕ) (h4 : 4 ≤ fuel)
    (hflt : rs.floats ctr < 85 / 100) :
    ∃ p, generate_created_at rs startD endD true hb fuel ctr = some p := by
  obtain ⟨f, rfl⟩ : ∃ f, fuel = f + 4 := ⟨fuel - 4, by omega⟩
  obtain ⟨⟨cand, c⟩, hp⟩ := fwdLoop_isSome rs startD endD
    (daysBetween startD endD) f
    (addDays startD (randInt rs 0 (daysBetween startD endD) (ctr + 1)).1)
    (randInt rs 0 (daysBetween startD endD) (ctr + 1)).2
  refine Option.isSome_iff_exists.mp ?_
  simp only [generate_created_at, pickDay, randFloat, if_true]
  rw [if_pos hflt, hp]
  rfl

/-- C6 witness. -/
theorem C6_weekday_branch_terminates_witness :
    ∃ p, generate_created_at rsZero ⟨0, 0⟩ ⟨4, 0⟩ true true 4 0 = some p :=
  C6_weekday_branch_terminates rsZero ⟨0, 0⟩ ⟨4, 0⟩ true 0 4 (by norm_num)
    (by norm_num [rsZero])

end Asana

namespace Asana

/-- C7 counterexample: uniqueness of user emails is not guaranteed for
every draw sequence.  With both users named (a, b), a pool already
holding all three distinct candidate patterns, and equal fallback
suffix draws, both users receive the unchecked fallback email
`a.b.1000@d`, a duplicate. -/
theorem C7_duplicate_email_cex :
    generate_users_emails rsZero (fun _ => ("a", "b")) "d"
      ["a.b@d", "ab@d", "a_b@d"] 2 =
      [("a.b.1000@d", true), ("a.b.1000@d", true)] ∧
    ¬ ((generate_users_emails rsZero (fun _ => ("a", "b")) "d"
      ["a.b@d", "ab@d", "a_b@d"] 2).map Prod.fst).Nodup := by
  have hx : ∀ n, generate_email (rsZero.floats n) "a" "b" "d" = "a.b@d" := by
    intro n
    norm_num [generate_email, rsZero, pyLower, pyDropChar]
    decide
  have h : generate_users_emails rsZero (fun _ => ("a", "b")) "d"
      ["a.b@d", "ab@d", "a_b@d"] 2 =
      [("a.b.1000@d", true), ("a.b.1000@d", true)] := by
    simp only [generate_users_emails, genUsersGo, attemptEmail, hx,
      fallbackEmail]
    decide
  refine ⟨h, ?_⟩
  rw [h]
  decide

/-- C7 (amended): the membership-checked attempt loop does enforce
uniqueness — whenever every email of a run comes from the checked
attempts (no fallback fired), the produced emails are pairwise distinct
and distinct from every pre-existing email; only the fallback path,
which adds its email without re-checking the pool, can duplicate. -/
theorem C7_email_uniqueness_no_fallback (rs : RS)
    (names : ℕ → String × String) (domain : String)
    (existing : List String) (count : ℕ)
    (hnf : ∀ p ∈ generate_users_emails rs names domain existing count,
      p.2 = false) :
    ((generate_users_emails rs names domain existing count).map
      Prod.fst).Nodup ∧
    ∀ e ∈ (generate_users_emails rs names domain existing count).map
      Prod.fst, e ∉ existing :=
  genUsersGo_nodup rs names domain count 0 0 existing hnf

/-- C7 witness. -/
theorem C7_email_uniqueness_no_fallback_witness :
    ((generate_users_emails rsZero namesAB "d" [] 2).map Prod.fst).Nodup ∧
    ∀ e ∈ (generate_users_emails rsZero namesAB "d" [] 2).map Prod.fst,
      e ∉ ([] : List String) := by
  refine C7_email_uniqueness_no_fallback rsZero namesAB "d" [] 2 ?_
  have hab : ∀ n, generate_email (rsZero.floats n) "a" "b" "d" = "a.b@d" := by
    intro n
    norm_num [generate_email, rsZero, pyLower, pyDropChar]
    decide
  have hcd : ∀ n, generate_email (rsZero.floats n) "c" "d" "d" = "c.d@d" := by
    intro n
    norm_num [generate_email, rsZero, pyLower, pyDropChar]
    decide
  simp only [generate_users_emails, genUsersGo, attemptEmail, namesAB,
    hab, hcd]
  decide

/-- C8 counterexample: a per-unit failure can abort sibling units.  The
per-project custom-field-definition call sits outside every `try` block
of `generate_tasks`, so when project 1's custom-field stage raises, the
whole stage aborts and project 2 — which succeeds when processed alone —
is never reached. -/
theorem C8_custom_fields_abort_cex :
    generate_tasks_pipeline
      [⟨1, .ok (), .ok [10], .error "boom"⟩, ⟨2, .ok (), .ok [20], .ok []⟩] =
      .error "boom" ∧
    generate_tasks_pipeline [⟨2, .ok (), .ok [20], .ok []⟩] = .ok [2] :=
  ⟨rfl, rfl⟩

/-- C8 (amended): per-project task-generation failures (and the
per-project queries before them) are isolated — the orchestrator logs,
skips that project's descendants and continues with the remaining
projects, returning exactly the projects whose preparation and task
generation succeeded — provided every project's custom-field-definition
call succeeds, since that call alone sits outside the `try` blocks and
its failure aborts the whole stage. -/
theorem C8_per_project_isolation (ps : List ProjStub)
    (hf : ∀ p ∈ ps, exOk p.fieldsR = true) :
    generate_tasks_pipeline ps =
      .ok ((ps.filter (fun p => exOk p.prepR && exOk p.taskGenR)).map
        ProjStub.pid) :=
  generate_tasks_pipeline_ok ps hf

/-- C8 witness: one project whose task generation fails is skipped while
its sibling is processed. -/
theorem C8_per_project_isolation_witness :
    generate_tasks_pipeline
      [⟨1, .ok (), .error "tfail", .ok []⟩, ⟨2, .ok (), .ok [20], .ok []⟩] =
      .ok (([(⟨1, .ok (), .error "tfail", .ok []⟩ : ProjStub),
        ⟨2, .ok (), .ok [20], .ok []⟩].filter
          (fun p => exOk p.prepR && exOk p.taskGenR)).map ProjStub.pid) :=
  C8_per_project_isolation
    [⟨1, .ok (), .error "tfail", .ok []⟩, ⟨2, .ok (), .ok [20], .ok []⟩]
    (by decide)

/-- C9: an empty, missing, or unparseable parent due date is replaced by
a freshly sampled due date from the subtask's own creation instant: the
subtask due-date computation then coincides with `generate_due_date`
applied to the subtask's `created_at` — no exception path exists, the
embedding is total — and every due date it produces is on or after the
subtask's creation date. -/
theorem C9_parent_due_fallback (rs : RS) (created : DT) (inp : PyDueStr)
    (fuel ctr : ℕ) (hbad : parse_parent_due inp = none) :
    subtask_due_date rs created (parse_parent_due inp) fuel ctr =
      generate_due_date rs created fuel ctr ∧
    ∀ (d : ℤ) (c : ℕ),
      subtask_due_date rs created (parse_parent_due inp) fuel ctr =
        some (some d, c) → created.days ≤ d := by
  rw [hbad]
  exact ⟨rfl, fun d c h =>
    generate_due_date_ge_created rs created fuel ctr d c h⟩

/-- C9 witness: an unparseable parent due-date string falls back to the
fresh sample. -/
theorem C9_parent_due_fallback_witness :
    subtask_due_date rsDue ⟨0, 3600⟩
      (parse_parent_due (.pystr "notadate" none)) 10 0 =
      generate_due_date rsDue ⟨0, 3600⟩ 10 0 ∧
    ∀ (d : ℤ) (c : ℕ),
      subtask_due_date rsDue ⟨0, 3600⟩
        (parse_parent_due (.pystr "notadate" none)) 10 0 =
        some (some d, c) → (⟨0, 3600⟩ : DT).days ≤ d :=
  C9_parent_due_fallback rsDue ⟨0, 3600⟩ (.pystr "notadate" none) 10 0
    (by decide)

/-- C10 counterexample: for a non-empty list whose weights sum to a
non-positive total, `weighted_choice` raises (`random.choices` rejects a
non-positive total) instead of returning a listed value, so the claim as
stated — every non-empty list yields one of the listed values — is
false at `[("a", 0)]`. -/
theorem C10_zero_weight_cex :
    weighted_choice 0 [("a", (0 : ℚ))] =
      .error "ValueError: total of weights must be greater than zero" := by
  norm_num [weighted_choice, cumWeights]

/-- C10 (amended): for every non-empty list whose weights sum to a
positive total, `weighted_choice` returns one of the listed values — the
bisection index is clamped to the list, so it never fabricates a value —
and for the empty list it raises at the unpacking step; a non-empty list
with non-positive total also raises rather than returning. -/
theorem C10_weighted_choice_in_values :
    (∀ (u : ℚ) (choices : List (String × ℚ)), choices ≠ [] →
      0 < (cumWeights (choices.map Prod.snd)).getLastD 0 →
      ∃ v, weighted_choice u choices = .ok v ∧
        v ∈ choices.map Prod.fst) ∧
    (∀ u : ℚ, weighted_choice u [] =
      .error "ValueError: not enough values to unpack") :=
  ⟨fun u choices hne hpos => weighted_choice_mem u choices hne hpos,
    fun _ => rfl⟩

/-- C10 witness. -/
theorem C10_weighted_choice_in_values_witness :
    ∃ v, weighted_choice 0 [("a", (1 : ℚ))] = .ok v ∧
      v ∈ [("a", (1 : ℚ))].map Prod.fst :=
  C10_weighted_choice_in_values.1 0 [("a", (1 : ℚ))] (by simp)
    (by norm_num [cumWeights])

end Asana
